import Mathlib

/-!
Verification of the ContextWeave core against its specification.

The Python sources are shallowly embedded: pure data transforms become Lean
functions over explicit state values, Python floats become exact rationals
(`ℚ`), fallible commands return `Except`, and external processes (git, the
filesystem, the agent capability) become explicit parameters or oracles.
Dictionaries persisted as JSON become Lean structures or association lists.
-/

namespace ContextWeave

/-! ## Memory store: lessons learned (`src/context_md/memory.py`)

`LessonLearned` keeps only the fields the memory-store operations read or
write; the dataclass defaults `applied_count = 0` and `effectiveness = 1.0`
are the callers' responsibility and appear as hypotheses where claims rely
on them.  `effectiveness` (a Python float) is embedded as `ℚ`. -/

structure Lesson where
  id : String
  issue : Nat
  issueType : String
  role : String
  category : String
  lesson : String
  context : String
  outcome : String
  appliedCount : Nat
  effectiveness : ℚ
  deriving DecidableEq, Repr

/-- `Memory.MAX_LESSONS`: keep top 100 lessons when pruning. -/
def maxLessons : Nat := 100

/-- The sort key used by `add_lesson`'s pruning step:
`x.get("effectiveness", 0) * x.get("applied_count", 1)` (both keys are always
present on stored lessons, so the `.get` defaults never apply). -/
def pruneScore (l : Lesson) : ℚ :=
  l.effectiveness * (l.appliedCount : ℚ)

/-- Python's `list.sort(key=..., reverse=True)` is a stable descending sort:
`a` stays before `b` exactly when `score b ≤ score a` (ties keep list order,
which `List.insertionSort` with a non-strict relation also does, since each
element is inserted in front of the first *later* element it does not
strictly lose to). -/
def pruneRel (a b : Lesson) : Prop := pruneScore b ≤ pruneScore a

instance : DecidableRel pruneRel := fun a b =>
  inferInstanceAs (Decidable (pruneScore b ≤ pruneScore a))

instance : IsTotal Lesson pruneRel :=
  ⟨fun a b => le_total (pruneScore b) (pruneScore a)⟩

instance : IsTrans Lesson pruneRel :=
  ⟨fun _ _ _ h h' => le_trans h' h⟩

/-- The duplicate scan at the top of `add_lesson`: walk the stored lessons in
order; at the first one agreeing with the new lesson on `(category, lesson)`,
increment that lesson's `applied_count` and stop (`return`).  `none` means no
stored lesson matched. -/
def bumpDuplicate : List Lesson → Lesson → Option (List Lesson)
  | [], _ => none
  | l :: ls, x =>
    if l.category = x.category ∧ l.lesson = x.lesson then
      some ({ l with appliedCount := l.appliedCount + 1 } :: ls)
    else
      (bumpDuplicate ls x).map (l :: ·)

/-- `Memory.add_lesson`: merge into a duplicate if one exists, otherwise
append and, past `MAX_LESSONS`, keep the top 100 by `effectiveness *
applied_count` descending (stable sort, then truncate). -/
def addLesson (lessons : List Lesson) (x : Lesson) : List Lesson :=
  match bumpDuplicate lessons x with
  | some updated => updated
  | none =>
    let ls := lessons ++ [x]
    if maxLessons < ls.length then
      (List.insertionSort pruneRel ls).take maxLessons
    else
      ls

/-- The effectiveness adjustment inside `update_lesson_effectiveness`:
success moves 10% of the remaining distance toward 1.0 (clamped by
`min(1.0, ...)`), failure multiplies by 0.9 (floored by `max(0.1, ...)`),
any other outcome leaves the value alone. -/
def newEffectiveness (e : ℚ) (outcome : String) : ℚ :=
  if outcome = "success" then min 1 (e + (1 - e) * (1 / 10))
  else if outcome = "failure" then max (1 / 10) (e * (9 / 10))
  else e

/-- `Memory.update_lesson_effectiveness`: find the first lesson with the given
id, bump its `applied_count`, adjust its effectiveness by outcome, and stop
(the loop `return`s after the first match). -/
def updateLessonEffectiveness : List Lesson → String → String → List Lesson
  | [], _, _ => []
  | l :: ls, lessonId, outcome =>
    if l.id = lessonId then
      { l with appliedCount := l.appliedCount + 1,
               effectiveness := newEffectiveness l.effectiveness outcome } :: ls
    else
      l :: updateLessonEffectiveness ls lessonId outcome

/-! ## Execution records (`src/context_md/memory.py`, `ExecutionRecord`)

Timestamps and the optional duration/token costs are free-text/omitted fields
that no verified operation inspects; they are left out of the embedding. -/

structure ExecRecord where
  issue : Nat
  role : String
  action : String
  outcome : String
  errorType : Option String := none
  errorMessage : Option String := none
  deriving DecidableEq, Repr

/-- `Memory.MAX_EXECUTIONS`: rolling window of execution history. -/
def maxExecutions : Nat := 500

/-- `Memory.record_execution`'s ring-buffer step: append, then keep only the
last `MAX_EXECUTIONS` entries (`executions[-MAX_EXECUTIONS:]`). -/
def recordExecution (executions : List ExecRecord) (r : ExecRecord) : List ExecRecord :=
  let es := executions ++ [r]
  if maxExecutions < es.length then es.drop (es.length - maxExecutions) else es

/-! ## Durable record store and SubAgent worktrees
(`src/context_weave/state.py`, `src/context_weave/commands/subagent.py`)

The durable state is the `worktrees` list of `state.json`; the per-branch git
note (`HandoffMetadata`) is a JSON object whose keys the commands read with
defaults and overwrite individually, embedded as a structure of optional
fields; git branches are a set of names.  One `World` value bundles the
stores a subagent command may touch, including the memory module's execution
ring buffer. -/

structure WorktreeInfo where
  issue : Nat
  branch : String
  path : String
  role : String
  createdAt : String
  deriving DecidableEq, Repr

structure BranchNote where
  issue : Option Nat := none
  role : Option String := none
  status : Option String := none
  createdAt : Option String := none
  lastActivity : Option String := none
  commits : Option Nat := none
  handoffFrom : Option String := none
  handoffTo : Option String := none
  handoffAt : Option String := none
  completedAt : Option String := none
  deriving DecidableEq, Repr

structure World where
  worktrees : List WorktreeInfo
  notes : List (String × BranchNote)
  branches : List String
  executions : List ExecRecord
  deriving DecidableEq, Repr

/-- `State.get_worktree`: first tracked worktree with the given issue. -/
def getWorktree (ws : List WorktreeInfo) (issue : Nat) : Option WorktreeInfo :=
  ws.find? (fun w => w.issue = issue)

/-- `State.remove_worktree`: pop the first tracked worktree with the issue. -/
def removeWorktree : List WorktreeInfo → Nat → List WorktreeInfo
  | [], _ => []
  | w :: ws, issue => if w.issue = issue then ws else w :: removeWorktree ws issue

/-- Modelled from the spec: `State.update_worktree_role` is called by the
handoff command and exercised by the repository's tests, but its definition
is not among the provided sources.  Per the spec (§4.3 step 4, "Updates the
EnvironmentRef's role field"), it sets the `role` of the tracked worktree for
the given issue. -/
def updateWorktreeRole (ws : List WorktreeInfo) (issue : Nat) (newRole : String) :
    List WorktreeInfo :=
  ws.map (fun w => if w.issue = issue then { w with role := newRole } else w)

/-- `get_branch_note(...) or {}` at the command call sites: the stored note
for a branch, or the empty JSON object. -/
def noteGet (notes : List (String × BranchNote)) (branch : String) : BranchNote :=
  ((notes.find? (fun p => p.1 = branch)).map Prod.snd).getD {}

/-- `set_branch_note` (`git notes add -f`): overwrite the note stored for the
branch, creating it if absent (the note store is keyed by branch). -/
def noteSet : List (String × BranchNote) → String → BranchNote →
    List (String × BranchNote)
  | [], branch, n => [(branch, n)]
  | p :: ps, branch, n =>
    if p.1 = branch then (branch, n) :: ps else p :: noteSet ps branch n

/-- `ROLE_NEXT` from `subagent.py` (`dict.get` returns `None` both for the
terminal `reviewer` entry and for unknown keys). -/
def roleNext (role : String) : Option String :=
  if role = "pm" then some "architect"
  else if role = "architect" then some "engineer"
  else if role = "engineer" then some "reviewer"
  else if role = "ux" then some "engineer"
  else none

/-! ### Branch-name derivation (`spawn_cmd`, lines 68–75) -/

/-- Python's `str.lower()`, character by character. -/
def pyLower (s : String) : String :=
  String.mk (s.toList.map Char.toLower)

/-- `re.sub(r'[^a-zA-Z0-9-]', '-', s)`: every character outside
`[a-zA-Z0-9-]` becomes a dash. -/
def sanitizeChar (c : Char) : Char :=
  if ('a' ≤ c ∧ c ≤ 'z') ∨ ('A' ≤ c ∧ c ≤ 'Z') ∨ ('0' ≤ c ∧ c ≤ '9') ∨ c = '-' then c
  else '-'

/-- `.rstrip("-")`: drop trailing dashes. -/
def dropTrailingDashes (l : List Char) : List Char :=
  (l.reverse.dropWhile (fun c => c = '-')).reverse

/-- `title or f"task-{issue}"`: the raw suffix source, falling back when the
hint is absent or empty (Python's falsy `or`). -/
def spawnHint (issue : Nat) (title : Option String) : String :=
  match title with
  | some t => if t = "" then "task-" ++ toString issue else t
  | none => "task-" ++ toString issue

/-- The branch name `spawn` derives: `"issue-{issue}-"` plus the lowercased,
sanitized title hint, with the suffix truncated so the whole name stays
within `max_branch_length = 80` characters and trailing dashes trimmed.
(`max_suffix` uses truncated `Nat` subtraction; the Python subtraction is
positive whenever the prefix is shorter than 80 characters, which holds for
every issue number below 10^72.) -/
def spawnBranchName (issue : Nat) (title : Option String) : String :=
  let maxBranchLength : Nat := 80
  let hint := spawnHint issue title
  let pre := "issue-" ++ toString issue ++ "-"
  let maxSuffix := maxBranchLength - pre.length
  let suffix := dropTrailingDashes (((pyLower hint).toList.map sanitizeChar).take maxSuffix)
  pre ++ String.mk suffix

/-! ### The subagent commands

Each command is a function from a `World` (plus the inputs the external
processes would supply: the current time, whether the checkout is on disk,
whether it has uncommitted changes, whether the branch is merged) to
`Except String World`.  `Except.error` models `click.ClickException`: the
command aborts and the caller's stores are exactly the `World` it passed in.
Git subprocess calls are modelled on their success path (their failures are
either warnings in the source or environmental errors outside the spec). -/

/-- `spawn_cmd` (with the already-exists rejection first, exactly as in the
source, where it precedes every write): derive the branch name, create the
branch if absent, register the worktree, write the initial HandoffMetadata
note (`status="spawned"`).  `path` stands for `config.get_worktree_path(issue)`
and `now` for the current UTC timestamp. -/
def spawn (w : World) (issue : Nat) (role : String) (title : Option String)
    (path now : String) : Except String World :=
  match getWorktree w.worktrees issue with
  | some existing =>
    .error ("SubAgent already exists for issue #" ++ toString issue ++ " at "
      ++ existing.path ++ "\nUse \x27context-weave subagent complete "
      ++ toString issue ++ "\x27 to finish it first.")
  | none =>
    let branchName := spawnBranchName issue title
    let branches :=
      if branchName ∈ w.branches then w.branches else w.branches ++ [branchName]
    let wt : WorktreeInfo :=
      { issue := issue, branch := branchName, path := path, role := role,
        createdAt := now }
    let note : BranchNote :=
      { issue := some issue, role := some role, status := some "spawned",
        createdAt := some now, lastActivity := some now, commits := some 0 }
    .ok { w with
            worktrees := w.worktrees ++ [wt],
            branches := branches,
            notes := noteSet w.notes branchName note }

/-- `complete_cmd`.  `onDisk` is `worktree_path.exists()`, `uncommitted`
whether `git status --porcelain` printed anything in the checkout, `merged`
whether the branch shows in `git branch --merged main`.  Push / PR creation
are best-effort externals that touch no modelled store.  On success the
worktree is removed, the note gets `status="completed"` with a completion
timestamp, the registry entry is dropped, and an `ExecutionRecord` with
action `"complete"` and outcome `"partial"` (forced) or `"success"` is
appended to the memory ring buffer.  (The recording goes through the
`context_weave.memory` module, whose file is not among the provided sources;
its `record_execution` is modelled from the spec §4.4 as the ring-buffer
append `recordExecution`.)  Without `keepBranch` the branch is deleted only
when merged. -/
def complete (w : World) (issue : Nat) (force keepBranch : Bool)
    (onDisk uncommitted merged : Bool) (now : String) : Except String World :=
  match getWorktree w.worktrees issue with
  | none => .error ("No SubAgent found for issue #" ++ toString issue)
  | some wt =>
    let role := wt.role
    if onDisk ∧ uncommitted ∧ ¬force then
      .error ("Worktree has uncommitted changes. Commit or stash them first.\n"
        ++ "Use --force to discard changes.")
    else
      let note := { noteGet w.notes wt.branch with
                      status := some "completed", completedAt := some now }
      let outcome := if force then "partial" else "success"
      let rec0 : ExecRecord :=
        { issue := issue, role := role, action := "complete", outcome := outcome }
      let branches :=
        if ¬keepBranch ∧ merged then w.branches.erase wt.branch else w.branches
      .ok { worktrees := removeWorktree w.worktrees issue,
            notes := noteSet w.notes wt.branch note,
            branches := branches,
            executions := recordExecution w.executions rec0 }

/-- `handoff_cmd`.  `dod role = (passed, total)` stands for
`_run_dod_checks_for_role` (file-existence checks, external).  With
validation passed or skipped: the registry entry's role is updated (via the
spec-modelled `updateWorktreeRole`), and the branch note is rewritten with
`status="handoff"`, the new role, `handoff_from`/`handoff_to`, and the
handoff/last-activity timestamps.  Context regeneration for the next role
(`generate_context_file`) is an external collaborator producing no modelled
state. -/
def handoff (w : World) (issue : Nat) (toRole : Option String)
    (skipValidation : Bool) (dod : String → Nat × Nat) (now : String) :
    Except String World :=
  match getWorktree w.worktrees issue with
  | none => .error ("No active SubAgent for issue #" ++ toString issue)
  | some wt =>
    let currentRole := wt.role
    match toRole.orElse (fun _ => roleNext currentRole) with
    | none =>
      .error ("No next role after \x27" ++ currentRole
        ++ "\x27. Use --to to specify, or use \x27subagent complete\x27 to finish.")
    | some nextRole =>
      if ¬skipValidation ∧ (dod currentRole).1 < (dod currentRole).2 then
        .error ("DoD validation: " ++ toString (dod currentRole).1 ++ "/"
          ++ toString (dod currentRole).2 ++ " checks passed.\n"
          ++ "Fix issues or use --skip-validation to force handoff.")
      else
        let note := { noteGet w.notes wt.branch with
                        status := some "handoff",
                        role := some nextRole,
                        handoffFrom := some currentRole,
                        handoffTo := some nextRole,
                        handoffAt := some now,
                        lastActivity := some now }
        .ok { w with
                worktrees := updateWorktreeRole w.worktrees issue nextRole,
                notes := noteSet w.notes wt.branch note }

/-- The stores a caller is left with after a command: the new `World` on
success, the untouched one on `ClickException`. -/
def worldAfter (w : World) (r : Except String World) : World :=
  match r with
  | .ok w' => w'
  | .error _ => w

/-! ## Workflow orchestrator (`src/context_weave/framework/orchestrator.py`)

The opaque agent capability (`create_agent` + `agent.run`, awaited) is an
oracle `Invoke`: given the role and the current input it either returns the
step's output text or raises, in which case the exception's type name and
`str(e)` are all the orchestrator looks at.  `_record_execution` loads the
memory store, appends one `ExecutionRecord`, and saves; the run is embedded
as returning the list of records it emits, in order (each of which the
source feeds to the memory module's ring buffer).  That module's file is not
among the provided sources; its append semantics is the spec-modelled
`recordExecution` above. -/

/-- The exception an agent invocation may raise: its type name
(`type(e).__name__`) and message (`str(e)`). -/
structure ExcInfo where
  typeName : String
  message : String
  deriving DecidableEq, Repr

/-- The opaque agent-invocation capability: role and input to output, or an
exception. -/
def Invoke : Type := String → String → Except ExcInfo String

inductive WorkflowType where
  | fullEpic | feature | story | bugFix | spike | singleAgent
  deriving DecidableEq, Repr

/-- `WORKFLOW_STEPS`: the ordered role sequence per workflow type, as the
source's dict — `SINGLE_AGENT` has no entry. -/
def workflowSteps : WorkflowType → Option (List String)
  | .fullEpic => some ["pm", "ux", "architect", "engineer", "reviewer"]
  | .feature => some ["architect", "engineer", "reviewer"]
  | .story => some ["engineer", "reviewer"]
  | .bugFix => some ["engineer", "reviewer"]
  | .spike => some ["architect"]
  | .singleAgent => none

/-- `ISSUE_TYPE_MAP`. -/
def issueTypeMap (s : String) : Option WorkflowType :=
  if s = "epic" then some .fullEpic
  else if s = "feature" then some .feature
  else if s = "story" then some .story
  else if s = "bug" then some .bugFix
  else if s = "spike" then some .spike
  else none

/-- `determine_workflow`: the first label that (lowercased, with `"type:"`
removed) names a workflow type wins; otherwise the lowercased issue type is
looked up, defaulting to `STORY`. -/
def determineWorkflow (issueType : String) (labels : List String) : WorkflowType :=
  let labelLower := labels.map (fun l => (pyLower l).replace "type:" "")
  match labelLower.find? (fun l => (issueTypeMap l).isSome) with
  | some l => (issueTypeMap l).getD .story
  | none => (issueTypeMap (pyLower issueType)).getD .story

structure StepResult where
  role : String
  output : String
  success : Bool
  error : Option String := none
  deriving DecidableEq, Repr

structure WorkflowResult where
  success : Bool
  outputs : List (String × String) := []
  finalOutput : String := ""
  stepsCompleted : List String := []
  stepResults : List StepResult := []
  error : Option String := none
  workflowType : Option WorkflowType := none
  deriving DecidableEq, Repr

/-- Python dict write `outputs[role] = output` on a string-keyed dict
embedded as an association list: overwrite the existing entry or append. -/
def assocSet : List (String × String) → String → String → List (String × String)
  | [], k, v => [(k, v)]
  | p :: ps, k, v => if p.1 = k then (k, v) :: ps else p :: assocSet ps k v

/-- `outputs.get(key, "")`-style lookup. -/
def assocGet (m : List (String × String)) (k : String) : Option String :=
  (m.find? (fun p => p.1 = k)).map Prod.snd

/-- `f"Step '{role}' failed: {error_msg}"`. -/
def stepFailMsg (role msg : String) : String :=
  "Step \x27" ++ role ++ "\x27 failed: " ++ msg

/-- The input handed to the next agent after a successful step. -/
def nextStepInput (role output : String) (issue : Nat) : String :=
  "Previous agent (" ++ role ++ ") output:\n\n" ++ output
    ++ "\n\nContinue working on issue #" ++ toString issue ++ "."

/-- The record `_run_sequential` emits for a successful step. -/
def stepSuccessRecord (issue : Nat) (role : String) : ExecRecord :=
  { issue := issue, role := role, action := "workflow_step_" ++ role,
    outcome := "success" }

/-- The record `_run_sequential` emits for a step whose invocation raised. -/
def stepFailureRecord (issue : Nat) (role : String) (e : ExcInfo) : ExecRecord :=
  { issue := issue, role := role, action := "workflow_step_" ++ role,
    outcome := "failure", errorType := some e.typeName,
    errorMessage := some e.message }

/-- `_run_sequential`'s loop over the remaining `steps`, carrying the
accumulators (`outputs`, `step_results`, `steps_completed`, the emitted
records, and `current_input`).  A raised invocation is caught: the loop
stops, a failure record is emitted, and a `success=False` result with the
failing role in `error` is returned.  With the loop done, the result is the
all-success `WorkflowResult`.  (`final_output` indexes the last element of
the original `steps` in the source; every step succeeded, so that equals the
last completed step, used here — the runner is never invoked on an empty
sequence.) -/
def runSeq (invoke : Invoke) (issue : Nat) (wfType : WorkflowType) :
    List String → String → List (String × String) → List StepResult →
    List String → List ExecRecord → WorkflowResult × List ExecRecord
  | [], _, outputs, stepResults, stepsCompleted, recs =>
    ({ success := true, outputs := outputs,
       finalOutput := ((stepsCompleted.getLast?).bind (assocGet outputs)).getD "",
       stepsCompleted := stepsCompleted, stepResults := stepResults,
       error := none, workflowType := some wfType }, recs)
  | role :: rest, currentInput, outputs, stepResults, stepsCompleted, recs =>
    match invoke role currentInput with
    | .ok output =>
      runSeq invoke issue wfType rest (nextStepInput role output issue)
        (assocSet outputs role output)
        (stepResults ++ [{ role := role, output := output, success := true }])
        (stepsCompleted ++ [role])
        (recs ++ [stepSuccessRecord issue role])
    | .error e =>
      ({ success := false, outputs := outputs,
         finalOutput := ((stepsCompleted.getLast?).bind (assocGet outputs)).getD "",
         stepsCompleted := stepsCompleted,
         stepResults := stepResults
           ++ [{ role := role, output := "", success := false, error := some e.message }],
         error := some (stepFailMsg role e.message),
         workflowType := some wfType }, recs ++ [stepFailureRecord issue role e])

/-- `run_single_agent`. -/
def runSingleAgent (invoke : Invoke) (issue : Nat) (role prompt : String) :
    WorkflowResult × List ExecRecord :=
  match invoke role prompt with
  | .ok output =>
    ({ success := true, outputs := [(role, output)], finalOutput := output,
       stepsCompleted := [role],
       stepResults := [{ role := role, output := output, success := true }],
       workflowType := some .singleAgent },
     [{ issue := issue, role := role, action := "single_agent_run",
        outcome := "success" }])
  | .error e =>
    ({ success := false, error := some e.message,
       stepResults := [{ role := role, output := "", success := false,
                         error := some e.message }],
       workflowType := some .singleAgent },
     [{ issue := issue, role := role, action := "single_agent_run",
        outcome := "failure", errorType := some e.typeName,
        errorMessage := some e.message }])

/-- `run_workflow`: an explicit role with no explicit workflow runs that
single agent; otherwise the role sequence for the (given or determined)
workflow type runs sequentially.  (The preferred graph strategy needs the
external `agent_framework` package; its absence raises `ImportError`, which
the source catches by falling back to `_run_sequential` — the path embedded
here.) -/
def runWorkflow (invoke : Invoke) (issue : Nat) (issueType prompt : String)
    (labels : List String) (role : Option String)
    (workflowType : Option WorkflowType) : WorkflowResult × List ExecRecord :=
  match role, workflowType with
  | some r, none => runSingleAgent invoke issue r prompt
  | _, _ =>
    let wfType := workflowType.getD (determineWorkflow issueType labels)
    let steps := (workflowSteps wfType).getD ((workflowSteps .story).getD [])
    runSeq invoke issue wfType steps prompt [] [] [] []

/-! ## Loading the persisted documents
(`State._load` in `src/context_weave/state.py`,
`Memory._load` in `src/context_md/memory.py`)

Both constructors read a JSON file through
`open(file, "r", encoding="utf-8")` + `json.load(f)` and catch exactly
`(json.JSONDecodeError, IOError)`.  What can come back from the disk is
embedded as a four-way split of the file's condition:

* `absent` — `exists()` is false;
* `undecodable` — the bytes are not valid UTF-8, so the read raises
  `UnicodeDecodeError` (a `ValueError` that is neither a `JSONDecodeError`
  nor an `IOError`, hence *not caught*);
* `unparseable` — the decoded text is not JSON (`json.JSONDecodeError`,
  caught);
* `parsed d` — the file parses to the document `d`.

A load returns `Except String doc`: `.error` is an exception escaping the
constructor, carrying the escaping exception's type name. -/

inductive DiskFile (α : Type) where
  | absent
  | undecodable
  | unparseable
  | parsed (d : α)
  deriving DecidableEq, Repr

/-- `GitHubConfig`-shaped block of `state.json` (`issue_cache` holds opaque
remote snapshots, embedded as raw key/value text). -/
structure GitHubBlock where
  enabled : Bool := false
  owner : Option String := none
  repo : Option String := none
  projectNumber : Option Nat := none
  lastSync : Option String := none
  issueCache : List (String × String) := []
  deriving DecidableEq, Repr

structure AuthBlock where
  githubToken : Option String := none
  githubTokenCreated : Option String := none
  deriving DecidableEq, Repr

/-- The `state.json` document. -/
structure StateDoc where
  schema : String
  version : String
  mode : String
  worktrees : List WorktreeInfo
  localIssues : List (String × String)
  auth : AuthBlock
  github : GitHubBlock
  deriving DecidableEq, Repr

/-- `State._default_state()`. -/
def defaultStateDoc : StateDoc :=
  { schema := "https://contextweave.dev/schemas/state-v1.json",
    version := "1.0",
    mode := "local",
    worktrees := [],
    localIssues := [],
    auth := {},
    github := {} }

/-- The aggregate counters of the memory document. -/
structure Metrics where
  totalExecutions : Nat := 0
  successCount : Nat := 0
  failureCount : Nat := 0
  partialCount : Nat := 0
  byRole : List (String × (Nat × Nat × Nat)) := []
  byCategory : List (String × Nat) := []
  byIssueType : List (String × Nat) := []
  deriving DecidableEq, Repr

/-- The `memory.json` document. -/
structure MemoryDoc where
  schema : String
  version : String
  lessons : List Lesson
  executions : List ExecRecord
  sessions : List (String × List String)
  metrics : Metrics
  deriving DecidableEq, Repr

/-- `Memory._default_memory()`. -/
def defaultMemoryDoc : MemoryDoc :=
  { schema := "https://context.md/schemas/memory-v1.json",
    version := "1.0",
    lessons := [],
    executions := [],
    sessions := [],
    metrics := {} }

/-- `State._load`. -/
def stateLoad (f : DiskFile StateDoc) : Except String StateDoc :=
  match f with
  | .absent => .ok defaultStateDoc
  | .undecodable => .error "UnicodeDecodeError"
  | .unparseable => .ok defaultStateDoc
  | .parsed d => .ok d

/-- `Memory._load`. -/
def memoryLoad (f : DiskFile MemoryDoc) : Except String MemoryDoc :=
  match f with
  | .absent => .ok defaultMemoryDoc
  | .undecodable => .error "UnicodeDecodeError"
  | .unparseable => .ok defaultMemoryDoc
  | .parsed d => .ok d

/-! ## Concrete sample values

Inputs used to evaluate the verified operations on closed instances. -/

def sampleLessonA : Lesson :=
  { id := "a", issue := 42, issueType := "bug", role := "engineer",
    category := "security", lesson := "validate all inputs", context := "ctx",
    outcome := "success", appliedCount := 0, effectiveness := 1 }

def sampleLessonB : Lesson := { sampleLessonA with id := "b" }

def baseLesson : Lesson :=
  { id := "base", issue := 1, issueType := "story", role := "engineer",
    category := "testing", lesson := "write tests first", context := "ctx",
    outcome := "success", appliedCount := 1, effectiveness := 1 }

def sampleWorktree : WorktreeInfo :=
  { issue := 7, branch := "issue-7-fix", path := "worktrees/7",
    role := "architect", createdAt := "2026-01-01T00:00:00Z" }

def sampleWorld : World :=
  { worktrees := [sampleWorktree],
    notes := [("issue-7-fix", { issue := some 7, role := some "architect",
                                status := some "spawned", commits := some 0 })],
    branches := ["issue-7-fix"],
    executions := [] }

/-- An agent capability that answers every invocation. -/
def okInvoke : Invoke := fun role _ => .ok ("output of " ++ role)

/-- An agent capability whose every invocation raises `ValueError("boom")`. -/
def failInvoke : Invoke := fun _ _ => .error { typeName := "ValueError", message := "boom" }

/-- A 300-character title hint. -/
def longTitle : String := String.mk (List.replicate 300 'a')

/-! ## Helper lemmas -/

theorem noteGet_noteSet (notes : List (String × BranchNote)) (branch : String)
    (n : BranchNote) : noteGet (noteSet notes branch n) branch = n := by
  induction notes with
  | nil => simp [noteSet, noteGet]
  | cons p ps ih =>
    by_cases h : p.1 = branch
    · simp [noteSet, noteGet, h]
    · simpa [noteSet, noteGet, h] using ih

theorem getWorktree_updateWorktreeRole (ws : List WorktreeInfo) (issue : Nat)
    (newRole : String) (wt : WorktreeInfo) (h : getWorktree ws issue = some wt) :
    getWorktree (updateWorktreeRole ws issue newRole) issue =
      some { wt with role := newRole } := by
  induction ws with
  | nil => simp [getWorktree] at h
  | cons w ws ih =>
    by_cases hw : w.issue = issue
    · simp [getWorktree, hw] at h
      subst h
      simp [getWorktree, updateWorktreeRole, hw]
    · simp [getWorktree, hw] at h
      simpa [getWorktree, updateWorktreeRole, hw] using ih h

theorem getWorktree_removeWorktree (ws : List WorktreeInfo) (issue : Nat)
    (wt : WorktreeInfo) (h : getWorktree ws issue = some wt)
    (huniq : ws.countP (fun w => w.issue = issue) ≤ 1) :
    getWorktree (removeWorktree ws issue) issue = none := by
  induction ws with
  | nil => simp [getWorktree] at h
  | cons w ws ih =>
    rw [List.countP_cons] at huniq
    by_cases hw : w.issue = issue
    · simp [hw] at huniq
      rw [removeWorktree, if_pos hw]
      rw [getWorktree, List.find?_eq_none]
      intro x hx
      simpa using huniq x hx
    · have huniq' : ws.countP (fun w => decide (w.issue = issue)) ≤ 1 := by
        simp [hw] at huniq
        omega
      rw [getWorktree, List.find?_cons_of_neg _ (by simpa using hw)] at h
      rw [removeWorktree, if_neg hw]
      rw [getWorktree, List.find?_cons_of_neg _ (by simpa using hw)]
      exact ih h huniq'

theorem recordExecution_getLast (es : List ExecRecord) (r : ExecRecord) :
    (recordExecution es r).getLast? = some r := by
  unfold recordExecution
  simp only [List.length_append, List.length_singleton]
  by_cases h : maxExecutions < es.length + 1
  · have hk : es.length + 1 - maxExecutions ≤ es.length := by
      simp only [maxExecutions] at h ⊢
      omega
    rw [if_pos h, List.drop_append_of_le_length hk]
    simp
  · rw [if_neg h]
    simp

/-! ## Claim theorems -/

/-- C7: for every issue that already has a registered execution environment,
`spawn` fails with the already-exists error, and — the rejection being the
first statement of the command, before any write — the caller's stores
(registry, branches, metadata notes) are exactly what they were. -/
theorem spawn_rejects_active_issue :
    ∀ (w : World) (issue : Nat) (role : String) (title : Option String)
      (path now : String) (existing : WorktreeInfo),
    getWorktree w.worktrees issue = some existing →
    spawn w issue role title path now =
      .error ("SubAgent already exists for issue #" ++ toString issue ++ " at "
        ++ existing.path ++ "\nUse \x27context-weave subagent complete "
        ++ toString issue ++ "\x27 to finish it first.") ∧
    worldAfter w (spawn w issue role title path now) = w := by
  intro w issue role title path now existing h
  unfold spawn
  rw [h]
  exact ⟨rfl, rfl⟩

/-- Witness for C7: a second spawn against the sample world's issue 7 is
rejected and leaves the world as it was. -/
theorem spawn_rejects_active_issue_witness :
    spawn sampleWorld 7 "engineer" none "worktrees/7b" "2026-01-02T00:00:00Z" =
      .error ("SubAgent already exists for issue #" ++ toString 7 ++ " at "
        ++ sampleWorktree.path ++ "\nUse \x27context-weave subagent complete "
        ++ toString 7 ++ "\x27 to finish it first.") ∧
    worldAfter sampleWorld
      (spawn sampleWorld 7 "engineer" none "worktrees/7b" "2026-01-02T00:00:00Z") =
      sampleWorld :=
  spawn_rejects_active_issue sampleWorld 7 "engineer" none "worktrees/7b"
    "2026-01-02T00:00:00Z" sampleWorktree (by decide)

/-- C8: the constructors degrade to the structurally-valid default document
when the file is absent or its text fails to parse as JSON — but they are
*not* raise-free: a file whose bytes are not valid UTF-8 makes
`open(..., encoding="utf-8")` + `json.load` raise `UnicodeDecodeError`, which
is neither of the two caught exception classes `(json.JSONDecodeError,
IOError)`, so constructing the store crashes on such content, contradicting
the claim's "never raises". -/
theorem load_crashes_on_undecodable_bytes :
    stateLoad .absent = .ok defaultStateDoc ∧
    stateLoad .unparseable = .ok defaultStateDoc ∧
    stateLoad .undecodable = .error "UnicodeDecodeError" ∧
    memoryLoad .absent = .ok defaultMemoryDoc ∧
    memoryLoad .unparseable = .ok defaultMemoryDoc ∧
    memoryLoad .undecodable = .error "UnicodeDecodeError" :=
  ⟨rfl, rfl, rfl, rfl, rfl, rfl⟩

theorem dropWhile_length_le (p : Char → Bool) (l : List Char) :
    (l.dropWhile p).length ≤ l.length := by
  induction l with
  | nil => simp
  | cons a l ih =>
    rw [List.dropWhile_cons]
    by_cases h : p a = true
    · rw [if_pos h]
      exact le_trans ih (Nat.le_succ _)
    · rw [if_neg h]

theorem dropTrailingDashes_length_le (l : List Char) :
    (dropTrailingDashes l).length ≤ l.length := by
  unfold dropTrailingDashes
  rw [List.length_reverse]
  exact le_trans (dropWhile_length_le _ _) (by rw [List.length_reverse])

theorem suffix_length_le (n : Nat) (l : List Char) :
    (dropTrailingDashes (l.take n)).length ≤ n :=
  le_trans (dropTrailingDashes_length_le _) (by simp [List.length_take])

/-- Whatever the title hint, the derived branch name is the issue-id prefix
followed by at most `80 - prefix-length` further characters. -/
theorem spawnBranchName_shape (issue : Nat) (title : Option String) :
    ∃ rest : List Char,
      spawnBranchName issue title =
        ("issue-" ++ toString issue ++ "-") ++ String.mk rest ∧
      rest.length ≤ 80 - ("issue-" ++ toString issue ++ "-").length := by
  exact ⟨_, rfl, suffix_length_le _ _⟩

/-- C9: branch-name derivation in `spawn` for issue 42 with any
300-character title hint yields a name of at most 80 characters that starts
with `issue-42-` — the sanitized hint is truncated, the issue-id prefix kept
whole. -/
theorem branch_name_bounded_for_issue42 :
    ∀ (title : String), title.length = 300 →
    (spawnBranchName 42 (some title)).length ≤ 80 ∧
    ∃ rest, spawnBranchName 42 (some title) = "issue-42-" ++ rest := by
  intro title _
  obtain ⟨rest, heq, hle⟩ := spawnBranchName_shape 42 (some title)
  have hpre : ("issue-" ++ toString 42 ++ "-") = "issue-42-" := by decide
  rw [hpre] at heq hle
  refine ⟨?_, ⟨String.mk rest, heq⟩⟩
  rw [heq]
  have h9 : ("issue-42-" : String).length = 9 := by decide
  have hmk : (String.mk rest).length = rest.length := rfl
  rw [String.length_append, h9, hmk]
  have : rest.length ≤ 71 := by simpa [h9] using hle
  omega

/-- Witness for C9: the 300-character hint `aaa…a` gives a bounded,
correctly prefixed branch name. -/
theorem branch_name_bounded_for_issue42_witness :
    (spawnBranchName 42 (some longTitle)).length ≤ 80 ∧
    ∃ rest, spawnBranchName 42 (some longTitle) = "issue-42-" ++ rest :=
  branch_name_bounded_for_issue42 longTitle
    (show (List.replicate 300 'a').length = 300 by rw [List.length_replicate])

theorem bumpDuplicate_eq_none (lessons : List Lesson) (x : Lesson)
    (h : ∀ l ∈ lessons, ¬(l.category = x.category ∧ l.lesson = x.lesson)) :
    bumpDuplicate lessons x = none := by
  induction lessons with
  | nil => rfl
  | cons l ls ih =>
    simp only [bumpDuplicate]
    rw [if_neg (h l (by simp)), ih (fun a ha => h a (by simp [ha]))]
    rfl

theorem bumpDuplicate_append_match (lessons : List Lesson) (x y : Lesson)
    (h : ∀ l ∈ lessons, ¬(l.category = y.category ∧ l.lesson = y.lesson))
    (hc : x.category = y.category) (hl : x.lesson = y.lesson) :
    bumpDuplicate (lessons ++ [x]) y =
      some (lessons ++ [{ x with appliedCount := x.appliedCount + 1 }]) := by
  induction lessons with
  | nil =>
    simp only [List.nil_append, bumpDuplicate]
    rw [if_pos ⟨hc, hl⟩]
  | cons l ls ih =>
    simp only [List.cons_append, bumpDuplicate, List.append_eq]
    rw [if_neg (h l (by simp)), ih (fun a ha => h a (by simp [ha]))]
    rfl

/-- C2 counterexample: two lessons `sampleLessonA` / `sampleLessonB` agree on
(category, lesson text) and differ in id; adding both to the empty store
leaves exactly one stored lesson with that pair — whose applied-count is 1,
not 2 (the first insert keeps the dataclass default 0; the merge adds 1). -/
theorem duplicate_add_applied_count_counterexample :
    sampleLessonA.id ≠ sampleLessonB.id ∧
    sampleLessonA.category = sampleLessonB.category ∧
    sampleLessonA.lesson = sampleLessonB.lesson ∧
    ((addLesson (addLesson [] sampleLessonA) sampleLessonB).filter
        (fun l => l.category = sampleLessonA.category ∧
          l.lesson = sampleLessonA.lesson)).map Lesson.appliedCount = [1] := by
  decide

/-- C2 (amended): for every store below its cap with no lesson matching the
pair, adding two lessons that agree on (category, lesson text) but have
different ids leaves exactly one stored lesson with that pair, and — the
first insert keeping its applied-count 0 and the merge incrementing it
once — that lesson's applied-count equals 1. -/
theorem duplicate_add_merges_to_single_lesson :
    ∀ (lessons : List Lesson) (x y : Lesson),
    (∀ l ∈ lessons, ¬(l.category = x.category ∧ l.lesson = x.lesson)) →
    lessons.length < 100 →
    x.appliedCount = 0 →
    y.id ≠ x.id → y.category = x.category → y.lesson = x.lesson →
    addLesson (addLesson lessons x) y = lessons ++ [{ x with appliedCount := 1 }] ∧
    ((addLesson (addLesson lessons x) y).filter
        (fun l => l.category = x.category ∧ l.lesson = x.lesson)).map
      Lesson.appliedCount = [1] := by
  intro lessons x y hnodup hlen hx0 _ hc hl
  have h1 : addLesson lessons x = lessons ++ [x] := by
    unfold addLesson
    rw [bumpDuplicate_eq_none lessons x hnodup]
    have hle : ¬ maxLessons < lessons.length + 1 := by
      simp only [maxLessons]
      omega
    simp only [List.length_append, List.length_singleton]
    rw [if_neg hle]
  have hnodup' : ∀ l ∈ lessons, ¬(l.category = y.category ∧ l.lesson = y.lesson) := by
    intro l hlmem hmat
    exact hnodup l hlmem ⟨hmat.1.trans hc, hmat.2.trans hl⟩
  have h2 : addLesson (lessons ++ [x]) y =
      lessons ++ [{ x with appliedCount := x.appliedCount + 1 }] := by
    unfold addLesson
    rw [bumpDuplicate_append_match lessons x y hnodup' hc.symm hl.symm]
  rw [h1, h2, hx0]
  refine ⟨rfl, ?_⟩
  have hfil : lessons.filter
      (fun l => decide (l.category = x.category ∧ l.lesson = x.lesson)) = [] := by
    rw [List.filter_eq_nil_iff]
    intro l hlmem
    simpa using hnodup l hlmem
  rw [List.filter_append, hfil]
  simp

/-- Witness for the amended C2: the two sample lessons added to the empty
store. -/
theorem duplicate_add_merges_to_single_lesson_witness :
    addLesson (addLesson [] sampleLessonA) sampleLessonB =
      [] ++ [{ sampleLessonA with appliedCount := 1 }] ∧
    ((addLesson (addLesson [] sampleLessonA) sampleLessonB).filter
        (fun l => l.category = sampleLessonA.category ∧
          l.lesson = sampleLessonA.lesson)).map Lesson.appliedCount = [1] :=
  duplicate_add_merges_to_single_lesson [] sampleLessonA sampleLessonB
    (by decide) (by decide) (by decide) (by decide) (by decide) (by decide)

theorem newEffectiveness_bounds (e : ℚ) (o : String)
    (hlo : 1 / 10 ≤ e) (hhi : e ≤ 1) :
    1 / 10 ≤ newEffectiveness e o ∧ newEffectiveness e o ≤ 1 := by
  unfold newEffectiveness
  by_cases hs : o = "success"
  · rw [if_pos hs]
    constructor
    · apply le_min (by norm_num)
      nlinarith
    · exact min_le_left _ _
  · rw [if_neg hs]
    by_cases hf : o = "failure"
    · rw [if_pos hf]
      constructor
      · exact le_max_left _ _
      · apply max_le (by norm_num)
        nlinarith
    · rw [if_neg hf]
      exact ⟨hlo, hhi⟩

theorem foldl_newEffectiveness_bounds (outcomes : List String) :
    ∀ e : ℚ, 1 / 10 ≤ e → e ≤ 1 →
    1 / 10 ≤ outcomes.foldl newEffectiveness e ∧
      outcomes.foldl newEffectiveness e ≤ 1 := by
  induction outcomes with
  | nil => intro e hlo hhi; exact ⟨hlo, hhi⟩
  | cons o os ih =>
    intro e hlo hhi
    rw [List.foldl_cons]
    obtain ⟨h1, h2⟩ := newEffectiveness_bounds e o hlo hhi
    exact ih _ h1 h2

/-- C3: `update_lesson_effectiveness` adjusts the first stored lesson with
the given id: success sets effectiveness to `e + (1 - e) * 0.1` capped at 1,
failure to `e * 0.9` floored at 0.1, any other outcome (`"partial"`) leaves
the effectiveness as it was; and iterating the adjustment over any finite
sequence of success/failure outcomes from 1.0 or 0.1 stays within
[0.1, 1.0]. -/
theorem update_effectiveness_formula_and_bounds :
    (∀ (ls : List Lesson) (lessonId outcome : String) (l : Lesson),
      ls.find? (fun x => x.id = lessonId) = some l →
      ((updateLessonEffectiveness ls lessonId outcome).find?
          (fun x => x.id = lessonId)).map Lesson.effectiveness =
        some (if outcome = "success" then
                min 1 (l.effectiveness + (1 - l.effectiveness) * (1 / 10))
              else if outcome = "failure" then
                max (1 / 10) (l.effectiveness * (9 / 10))
              else l.effectiveness)) ∧
    (∀ start : ℚ, start = 1 ∨ start = 1 / 10 →
      ∀ outcomes : List String, (∀ o ∈ outcomes, o = "success" ∨ o = "failure") →
      1 / 10 ≤ outcomes.foldl newEffectiveness start ∧
        outcomes.foldl newEffectiveness start ≤ 1) := by
  constructor
  · intro ls lessonId outcome
    induction ls with
    | nil => intro l h; simp [List.find?] at h
    | cons a as ih =>
      intro l h
      by_cases ha : a.id = lessonId
      · rw [List.find?_cons_of_pos _ (by simpa using ha)] at h
        rw [updateLessonEffectiveness, if_pos ha]
        rw [List.find?_cons_of_pos _ (by simpa using ha)]
        cases h
        simp [newEffectiveness]
      · rw [List.find?_cons_of_neg _ (by simpa using ha)] at h
        rw [updateLessonEffectiveness, if_neg ha]
        rw [List.find?_cons_of_neg _ (by simpa using ha)]
        exact ih l h
  · intro start hstart outcomes _
    rcases hstart with h | h <;> rw [h]
    · exact foldl_newEffectiveness_bounds outcomes 1 (by norm_num) le_rfl
    · exact foldl_newEffectiveness_bounds outcomes (1 / 10) le_rfl (by norm_num)

/-- Witness for C3: a failure outcome applied to the sample lesson (stored
alone, effectiveness 1) and a success/failure/partial outcome sequence from
1.0. -/
theorem update_effectiveness_formula_and_bounds_witness :
    (((updateLessonEffectiveness [sampleLessonA] "a" "failure").find?
        (fun x => x.id = "a")).map Lesson.effectiveness =
      some (if "failure" = "success" then
              min 1 (sampleLessonA.effectiveness
                + (1 - sampleLessonA.effectiveness) * (1 / 10))
            else if "failure" = "failure" then
              max (1 / 10) (sampleLessonA.effectiveness * (9 / 10))
            else sampleLessonA.effectiveness)) ∧
    (1 / 10 ≤ ["success", "failure"].foldl newEffectiveness 1 ∧
      ["success", "failure"].foldl newEffectiveness 1 ≤ 1) :=
  ⟨update_effectiveness_formula_and_bounds.1 [sampleLessonA] "a" "failure"
      sampleLessonA (by decide),
   update_effectiveness_formula_and_bounds.2 1 (Or.inl rfl)
      ["success", "failure"] (by decide)⟩

theorem orderedInsert_append_last {α : Type} (r : α → α → Prop) [DecidableRel r]
    (a x : α) (h : r a x) :
    ∀ s : List α, List.orderedInsert r a (s ++ [x]) = List.orderedInsert r a s ++ [x] := by
  intro s
  induction s with
  | nil => simp [List.orderedInsert, h]
  | cons b s ih =>
    by_cases hb : r a b
    · simp [List.orderedInsert, hb]
    · simp [List.orderedInsert, hb, ih]

/-- An element no earlier element loses to stays last through the stable
sort: inserting it at the end commutes with sorting the rest. -/
theorem insertionSort_append_last {α : Type} (r : α → α → Prop) [DecidableRel r]
    (x : α) : ∀ l : List α, (∀ e ∈ l, r e x) →
    List.insertionSort r (l ++ [x]) = List.insertionSort r l ++ [x] := by
  intro l
  induction l with
  | nil => intro _; rfl
  | cons a l ih =>
    intro h
    simp only [List.cons_append, List.insertionSort, List.append_eq]
    rw [ih (fun e he => h e (by simp [he]))]
    exact orderedInsert_append_last r a x (h a (by simp)) _

/-- C10: with the store at its cap of 100 and no duplicate (category, text)
match, `add_lesson`'s pruning gives the freshly inserted lesson the score
`effectiveness * applied_count = 0` (its applied-count starts at 0), so when
every stored lesson has applied-count ≥ 1 (and the nonnegative effectiveness
every stored lesson has), the new lesson sorts last and the truncation to
100 evicts exactly it, whatever its effectiveness: the store becomes the
sorted 100 existing lessons. -/
theorem prune_evicts_fresh_lesson :
    ∀ (lessons : List Lesson) (x : Lesson),
    lessons.length = 100 →
    (∀ l ∈ lessons, ¬(l.category = x.category ∧ l.lesson = x.lesson)) →
    x.appliedCount = 0 →
    (∀ l ∈ lessons, 1 ≤ l.appliedCount) →
    (∀ l ∈ lessons, 0 ≤ l.effectiveness) →
    pruneScore x = 0 ∧
    addLesson lessons x = List.insertionSort pruneRel lessons ∧
    x ∉ addLesson lessons x ∧
    (addLesson lessons x).length = 100 := by
  intro lessons x hlen hnodup hx0 _ heff
  have hscore : pruneScore x = 0 := by
    unfold pruneScore
    rw [hx0]
    simp
  have hrel : ∀ e ∈ lessons, pruneRel e x := by
    intro e he
    unfold pruneRel
    rw [hscore]
    exact mul_nonneg (heff e he) (by positivity)
  have hadd : addLesson lessons x = List.insertionSort pruneRel lessons := by
    unfold addLesson
    rw [bumpDuplicate_eq_none lessons x hnodup]
    have hgt : maxLessons < lessons.length + 1 := by
      rw [hlen]; simp [maxLessons]
    simp only [List.length_append, List.length_singleton]
    rw [if_pos hgt, insertionSort_append_last pruneRel x lessons hrel]
    have hslen : (List.insertionSort pruneRel lessons).length = maxLessons := by
      rw [List.length_insertionSort, hlen]
      rfl
    rw [← hslen, List.take_left]
  refine ⟨hscore, hadd, ?_, ?_⟩
  · rw [hadd, List.mem_insertionSort]
    intro hmem
    exact hnodup x hmem ⟨rfl, rfl⟩
  · rw [hadd, List.length_insertionSort, hlen]

/-- Witness for C10: a store of 100 identical well-applied lessons plus a
fresh lesson in a different category. -/
theorem prune_evicts_fresh_lesson_witness :
    pruneScore sampleLessonA = 0 ∧
    addLesson (List.replicate 100 baseLesson) sampleLessonA =
      List.insertionSort pruneRel (List.replicate 100 baseLesson) ∧
    sampleLessonA ∉ addLesson (List.replicate 100 baseLesson) sampleLessonA ∧
    (addLesson (List.replicate 100 baseLesson) sampleLessonA).length = 100 :=
  prune_evicts_fresh_lesson (List.replicate 100 baseLesson) sampleLessonA
    (by rw [List.length_replicate])
    (fun l hl => by rw [List.eq_of_mem_replicate hl]; decide)
    rfl
    (fun l hl => by rw [List.eq_of_mem_replicate hl]; decide)
    (fun l hl => by rw [List.eq_of_mem_replicate hl]; decide)

/-- C1: for every issue with an active execution environment and a
resolvable next role (an explicit target, or `ROLE_NEXT` of the current
role), `handoff` with validation skipped succeeds; in the resulting durable
record the environment's role field is the new role, and the branch's
HandoffMetadata is rewritten with `status="handoff"`, `handoff_from` = the
prior role, `handoff_to` = the new role, and the handoff timestamp (the
note's `role` and `last_activity` move along, every other key is kept). -/
theorem handoff_updates_role_and_metadata :
    ∀ (w : World) (issue : Nat) (toRole : Option String)
      (dod : String → Nat × Nat) (now : String) (wt : WorktreeInfo)
      (nextRole : String),
    getWorktree w.worktrees issue = some wt →
    toRole.orElse (fun _ => roleNext wt.role) = some nextRole →
    ∃ w', handoff w issue toRole true dod now = .ok w' ∧
      getWorktree w'.worktrees issue = some { wt with role := nextRole } ∧
      noteGet w'.notes wt.branch =
        { noteGet w.notes wt.branch with
            status := some "handoff",
            role := some nextRole,
            handoffFrom := some wt.role,
            handoffTo := some nextRole,
            handoffAt := some now,
            lastActivity := some now } := by
  intro w issue toRole dod now wt nextRole hfind hnext
  refine ⟨{ w with
              worktrees := updateWorktreeRole w.worktrees issue nextRole,
              notes := noteSet w.notes wt.branch
                { noteGet w.notes wt.branch with
                    status := some "handoff",
                    role := some nextRole,
                    handoffFrom := some wt.role,
                    handoffTo := some nextRole,
                    handoffAt := some now,
                    lastActivity := some now } }, ?_, ?_, ?_⟩
  · unfold handoff
    simp [hfind, hnext]
  · exact getWorktree_updateWorktreeRole w.worktrees issue nextRole wt hfind
  · exact noteGet_noteSet w.notes wt.branch _

/-- Witness for C1: handing off the sample world's issue 7 (role
`architect`, no explicit target) lands on `engineer` with the rewritten
metadata. -/
theorem handoff_updates_role_and_metadata_witness :
    ∃ w', handoff sampleWorld 7 none true (fun _ => (0, 0)) "2026-01-03T00:00:00Z" =
        .ok w' ∧
      getWorktree w'.worktrees 7 = some { sampleWorktree with role := "engineer" } ∧
      noteGet w'.notes sampleWorktree.branch =
        { noteGet sampleWorld.notes sampleWorktree.branch with
            status := some "handoff",
            role := some "engineer",
            handoffFrom := some sampleWorktree.role,
            handoffTo := some "engineer",
            handoffAt := some "2026-01-03T00:00:00Z",
            lastActivity := some "2026-01-03T00:00:00Z" } :=
  handoff_updates_role_and_metadata sampleWorld 7 none (fun _ => (0, 0))
    "2026-01-03T00:00:00Z" sampleWorktree "engineer" (by decide) (by decide)

/-- C6: on an environment whose checkout has uncommitted changes, `complete`
without `--force` fails and leaves every store as it was; `complete --force`
on the same environment succeeds, removes the registry entry (the one entry
for that issue, per the one-per-issue hypothesis), marks the metadata
completed, and appends an `ExecutionRecord` for the environment's role with
outcome `"partial"`; without force on a clean checkout the appended record's
outcome is `"success"`. -/
theorem complete_force_semantics :
    ∀ (w : World) (issue : Nat) (wt : WorktreeInfo) (now : String),
    getWorktree w.worktrees issue = some wt →
    w.worktrees.countP (fun x => x.issue = issue) ≤ 1 →
    (complete w issue false false true true false now =
        .error ("Worktree has uncommitted changes. Commit or stash them first.\n"
          ++ "Use --force to discard changes.") ∧
      worldAfter w (complete w issue false false true true false now) = w) ∧
    (∃ w', complete w issue true false true true false now = .ok w' ∧
      getWorktree w'.worktrees issue = none ∧
      (noteGet w'.notes wt.branch).status = some "completed" ∧
      w'.executions.getLast? = some
        { issue := issue, role := wt.role, action := "complete",
          outcome := "partial" }) ∧
    (∃ w', complete w issue false false true false false now = .ok w' ∧
      w'.executions.getLast? = some
        { issue := issue, role := wt.role, action := "complete",
          outcome := "success" }) := by
  intro w issue wt now hfind huniq
  refine ⟨⟨?_, ?_⟩, ?_, ?_⟩
  · unfold complete
    rw [hfind]
    simp
  · unfold complete worldAfter
    rw [hfind]
    simp
  · refine ⟨{ worktrees := removeWorktree w.worktrees issue,
              notes := noteSet w.notes wt.branch
                { noteGet w.notes wt.branch with
                    status := some "completed", completedAt := some now },
              branches := w.branches,
              executions := recordExecution w.executions
                { issue := issue, role := wt.role, action := "complete",
                  outcome := "partial" } }, ?_, ?_, ?_, ?_⟩
    · unfold complete
      rw [hfind]
      simp
    · exact getWorktree_removeWorktree w.worktrees issue wt hfind huniq
    · rw [noteGet_noteSet]
    · exact recordExecution_getLast _ _
  · refine ⟨{ worktrees := removeWorktree w.worktrees issue,
              notes := noteSet w.notes wt.branch
                { noteGet w.notes wt.branch with
                    status := some "completed", completedAt := some now },
              branches := w.branches,
              executions := recordExecution w.executions
                { issue := issue, role := wt.role, action := "complete",
                  outcome := "success" } }, ?_, ?_⟩
    · unfold complete
      rw [hfind]
      simp
    · exact recordExecution_getLast _ _

/-- Witness for C6: completing the sample world's issue 7. -/
theorem complete_force_semantics_witness :
    (complete sampleWorld 7 false false true true false "2026-01-04T00:00:00Z" =
        .error ("Worktree has uncommitted changes. Commit or stash them first.\n"
          ++ "Use --force to discard changes.") ∧
      worldAfter sampleWorld
        (complete sampleWorld 7 false false true true false "2026-01-04T00:00:00Z") =
        sampleWorld) ∧
    (∃ w', complete sampleWorld 7 true false true true false "2026-01-04T00:00:00Z" =
        .ok w' ∧
      getWorktree w'.worktrees 7 = none ∧
      (noteGet w'.notes sampleWorktree.branch).status = some "completed" ∧
      w'.executions.getLast? = some
        { issue := 7, role := sampleWorktree.role, action := "complete",
          outcome := "partial" }) ∧
    (∃ w', complete sampleWorld 7 false false true false false "2026-01-04T00:00:00Z" =
        .ok w' ∧
      w'.executions.getLast? = some
        { issue := 7, role := sampleWorktree.role, action := "complete",
          outcome := "success" }) :=
  complete_force_semantics sampleWorld 7 sampleWorktree "2026-01-04T00:00:00Z"
    (by decide) (by decide)

/-- Characterization of the sequential runner: either every remaining step
succeeds (all-success result, one success record per step), or the first
step whose invocation raises stops the run with the failure recorded. -/
theorem runSeq_chars (invoke : Invoke) (issue : Nat) (wfType : WorkflowType) :
    ∀ (steps : List String) (input : String) (outputs : List (String × String))
      (stepResults : List StepResult) (stepsCompleted : List String)
      (recs : List ExecRecord) (res : WorkflowResult) (emitted : List ExecRecord),
    runSeq invoke issue wfType steps input outputs stepResults stepsCompleted recs
      = (res, emitted) →
    (res.success = true ∧
     res.stepsCompleted = stepsCompleted ++ steps ∧
     res.error = none ∧
     emitted = recs ++ steps.map (stepSuccessRecord issue) ∧
     res.stepResults.map StepResult.role = stepResults.map StepResult.role ++ steps) ∨
    (∃ done r e rest,
      steps = done ++ r :: rest ∧
      res.success = false ∧
      res.stepsCompleted = stepsCompleted ++ done ∧
      res.error = some (stepFailMsg r e.message) ∧
      emitted = recs ++ done.map (stepSuccessRecord issue)
        ++ [stepFailureRecord issue r e] ∧
      res.stepResults.map StepResult.role
        = stepResults.map StepResult.role ++ done ++ [r]) := by
  intro steps
  induction steps with
  | nil =>
    intro input outputs stepResults stepsCompleted recs res emitted h
    rw [runSeq] at h
    injection h with h1 h2
    subst h1
    subst h2
    left
    simp
  | cons role rest ih =>
    intro input outputs stepResults stepsCompleted recs res emitted h
    rw [runSeq] at h
    cases hinv : invoke role input with
    | ok output =>
      rw [hinv] at h
      rcases ih _ _ _ _ _ _ _ h with
        ⟨h1, h2, h3, h4, h5⟩ | ⟨done, r, e, rest', hsteps, h1, h2, h3, h4, h5⟩
      · left
        refine ⟨h1, ?_, h3, ?_, ?_⟩
        · rw [h2]; simp
        · rw [h4]; simp
        · rw [h5]; simp
      · right
        refine ⟨role :: done, r, e, rest', ?_, h1, ?_, h3, ?_, ?_⟩
        · rw [List.cons_append, ← hsteps]
        · rw [h2]; simp
        · rw [h4]; simp
        · rw [h5]; simp
    | error e =>
      rw [hinv] at h
      injection h with h1 h2
      subst h1
      subst h2
      right
      refine ⟨[], role, e, rest, rfl, rfl, by simp, rfl, by simp, by simp⟩

/-- C5: a raised agent invocation never escapes the sequential runner (the
runner is a total function into `WorkflowResult`): either every step
succeeded — each with an emitted success `ExecutionRecord` — or the run
stopped at the first raising step with `success = false`, a human-readable
`error` naming the failing role, a failure record classified by the
exception's type name, and a success record for each completed step. -/
theorem sequential_run_contains_step_failures :
    ∀ (invoke : Invoke) (issue : Nat) (wfType : WorkflowType)
      (steps : List String) (prompt : String) (res : WorkflowResult)
      (emitted : List ExecRecord),
    runSeq invoke issue wfType steps prompt [] [] [] [] = (res, emitted) →
    (res.success = true ∧ res.stepsCompleted = steps ∧ res.error = none ∧
      emitted = steps.map (stepSuccessRecord issue)) ∨
    (∃ done r e rest, steps = done ++ r :: rest ∧
      res.success = false ∧
      res.stepsCompleted = done ∧
      res.error = some (stepFailMsg r e.message) ∧
      emitted = done.map (stepSuccessRecord issue) ++ [stepFailureRecord issue r e] ∧
      res.stepResults.map StepResult.role = done ++ [r]) := by
  intro invoke issue wfType steps prompt res emitted h
  rcases runSeq_chars invoke issue wfType steps prompt [] [] [] [] res emitted h with
    ⟨h1, h2, h3, h4⟩ | ⟨done, r, e, rest, hsteps, h1, h2, h3, h4, h5⟩
  · left
    exact ⟨h1, by simpa using h2, h3, by simpa using h4.1⟩
  · right
    exact ⟨done, r, e, rest, hsteps, h1, by simpa using h2, h3,
      by simpa using h4, by simpa using h5⟩

/-- Witness for C5: the always-raising capability over the story sequence
lands in the failure branch of the characterization. -/
theorem sequential_run_contains_step_failures_witness :
    ((runSeq failInvoke 7 .story ["engineer", "reviewer"] "p" [] [] [] []).1.success
        = true ∧
      (runSeq failInvoke 7 .story ["engineer", "reviewer"] "p" [] [] [] []).1.stepsCompleted
        = ["engineer", "reviewer"] ∧
      (runSeq failInvoke 7 .story ["engineer", "reviewer"] "p" [] [] [] []).1.error
        = none ∧
      (runSeq failInvoke 7 .story ["engineer", "reviewer"] "p" [] [] [] []).2
        = ["engineer", "reviewer"].map (stepSuccessRecord 7)) ∨
    (∃ done r e rest, ["engineer", "reviewer"] = done ++ r :: rest ∧
      (runSeq failInvoke 7 .story ["engineer", "reviewer"] "p" [] [] [] []).1.success
        = false ∧
      (runSeq failInvoke 7 .story ["engineer", "reviewer"] "p" [] [] [] []).1.stepsCompleted
        = done ∧
      (runSeq failInvoke 7 .story ["engineer", "reviewer"] "p" [] [] [] []).1.error
        = some (stepFailMsg r e.message) ∧
      (runSeq failInvoke 7 .story ["engineer", "reviewer"] "p" [] [] [] []).2
        = done.map (stepSuccessRecord 7) ++ [stepFailureRecord 7 r e] ∧
      (runSeq failInvoke 7 .story ["engineer", "reviewer"] "p" [] [] [] []).1.stepResults.map
        StepResult.role = done ++ [r]) :=
  sequential_run_contains_step_failures failInvoke 7 .story
    ["engineer", "reviewer"] "p" _ _ rfl

/-- C4: a workflow run for issue type `"story"` with no labels, no explicit
role and no explicit workflow resolves to exactly the sequence
`[engineer, reviewer]`; whenever the engineer invocation answers both roles
are attempted, in that order, and if the engineer step fails the reviewer
step is never attempted, no step completes, and the result has
`success = false`. -/
theorem story_workflow_sequence :
    ∀ (invoke : Invoke) (issue : Nat) (prompt : String),
    workflowSteps (determineWorkflow "story" []) = some ["engineer", "reviewer"] ∧
    (∀ output, invoke "engineer" prompt = .ok output →
      (runWorkflow invoke issue "story" prompt [] none none).1.stepResults.map
        StepResult.role = ["engineer", "reviewer"]) ∧
    (∀ e, invoke "engineer" prompt = .error e →
      (runWorkflow invoke issue "story" prompt [] none none).1.stepResults.map
          StepResult.role = ["engineer"] ∧
        (runWorkflow invoke issue "story" prompt [] none none).1.stepsCompleted = [] ∧
        (runWorkflow invoke issue "story" prompt [] none none).1.success = false) := by
  intro invoke issue prompt
  have hdet : determineWorkflow "story" [] = WorkflowType.story := by decide
  have hrun : runWorkflow invoke issue "story" prompt [] none none =
      runSeq invoke issue .story ["engineer", "reviewer"] prompt [] [] [] [] := by
    unfold runWorkflow
    rw [hdet]
    rfl
  refine ⟨by rw [hdet]; rfl, ?_, ?_⟩
  · intro output hok
    rw [hrun]
    cases hinv2 : invoke "reviewer" (nextStepInput "engineer" output issue) with
    | ok o2 => simp [runSeq, hok, hinv2]
    | error e2 => simp [runSeq, hok, hinv2]
  · intro e herr
    rw [hrun]
    refine ⟨?_, ?_, ?_⟩ <;> simp [runSeq, herr]

/-- Witness for C4: one capability that answers every role and one whose
engineer invocation raises `ValueError("boom")`. -/
theorem story_workflow_sequence_witness :
    (okInvoke "engineer" "p" = .ok "output of engineer" ∧
      (runWorkflow okInvoke 7 "story" "p" [] none none).1.stepResults.map
        StepResult.role = ["engineer", "reviewer"]) ∧
    (failInvoke "engineer" "p" = .error { typeName := "ValueError", message := "boom" } ∧
      (runWorkflow failInvoke 7 "story" "p" [] none none).1.stepResults.map
          StepResult.role = ["engineer"] ∧
        (runWorkflow failInvoke 7 "story" "p" [] none none).1.stepsCompleted = [] ∧
        (runWorkflow failInvoke 7 "story" "p" [] none none).1.success = false) :=
  ⟨⟨rfl, (story_workflow_sequence okInvoke 7 "p").2.1 "output of engineer" rfl⟩,
   ⟨rfl, (story_workflow_sequence failInvoke 7 "p").2.2
      { typeName := "ValueError", message := "boom" } rfl⟩⟩

end ContextWeave
